import Mathlib

/-!
Verification of the Multi-Agent Coordination Server core against its
specification.  The definitions below are a shallow embedding of the
Python source:

* `agent_manager/id_generator.py`   — sequential id generation,
* `Demo4/agent_manager/service.py`  — `DatabaseService` operations on the
  relational store (task graphs, claiming, results, rework, file-lock
  records),
* `Demo4/agent_manager/core/manager.py` — planning fallback path,
* `Demo4/agent_manager/core/file_lock.py` — in-process file-lock registry.

The relational store is modelled as explicit lists of rows; timestamps are
naturals; every database operation becomes a pure state-passing function.
Each operation mirrors the corresponding Python function statement by
statement (comments cite source lines).
-/

/-- `TaskStatus` from `core/models.py` (lines 32-38). -/
inductive TaskStatus where
  | PENDING
  | READY
  | IN_PROGRESS
  | COMPLETED
  | FAILED
  deriving DecidableEq, Repr

/-- A JSON-ish metadata value (workflow metadata is a JSON object in the
source; only the value shapes the core actually stores are needed). -/
inductive MetaVal where
  | s (v : String)
  | strs (v : List String)
  | n (v : Nat)
  | b (v : Bool)
  deriving DecidableEq, Repr

/-- A JSON object: association of keys to values.  `metaInsert` keeps the
canonical form `(key, value) :: rest-without-key`, mirroring the key-set
semantics of a JSON object under the jsonb `||` merge operator. -/
def Meta : Type := List (String × MetaVal)

instance : DecidableEq Meta := by
  unfold Meta
  infer_instance

instance : Repr Meta := by
  unfold Meta
  infer_instance

/-- Remove every binding of `k` (a JSON object has at most one, but the
canonical form makes this total). -/
def metaErase (k : String) (m : Meta) : Meta :=
  m.filter (fun e => decide (e.1 ≠ k))

/-- Overwrite-insert, the per-key effect of the jsonb `||` merge used in
`reset_tasks_for_rework` (service.py lines 790-799). -/
def metaInsert (k : String) (v : MetaVal) (m : Meta) : Meta :=
  (k, v) :: metaErase k m

/-- Lookup in a metadata object. -/
def metaLookup (k : String) (m : Meta) : Option MetaVal :=
  (m.find? (fun e => decide (e.1 = k))).map Prod.snd

/-! ### Sequential id generation (`id_generator.py`)

`_get_next_id` (lines 32-74) reads the counter row for a kind, creates it
at value 1 when absent, otherwise increments it, and renders the id as
`f"{prefix}{next_value:0{padding}d}"`.  Python's `:0Nd` format pads the
decimal representation with zeros on the left to a length of *at least*
`N`; larger values render with all their digits. -/

/-- The decimal digit character for `d < 10`. -/
def digitChar (d : Nat) : Char := Char.ofNat (48 + d)

/-- Decimal digits of `n`, most significant first, with explicit fuel so
that the definition is structural (fuel `n` always suffices). -/
def decDigitsAux : Nat → Nat → List Char
  | 0, _ => []
  | fuel + 1, n =>
      if n = 0 then []
      else decDigitsAux fuel (n / 10) ++ [digitChar (n % 10)]

/-- Decimal digits of `n` (empty for 0, as in the recursion; `natToDec`
restores the "0" rendering). -/
def decDigits (n : Nat) : List Char := decDigitsAux n n

/-- Python `str(n)` for a natural number. -/
def natToDec (n : Nat) : String :=
  if n = 0 then "0" else String.mk (decDigits n)

/-- Python `f"{n:0{w}d}"`: zero-pad on the left to at least `w` characters
(truncated subtraction makes over-long values come out unpadded). -/
def padNum (w n : Nat) : String :=
  String.mk (List.replicate (w - (natToDec n).length) '0') ++ natToDec n

/-- `f"{prefix}{next_value:0{padding}d}"` (id_generator.py line 74). -/
def formatId (pre : String) (w n : Nat) : String := pre ++ padNum w n

/-- The counter-row update of `_get_next_id` (id_generator.py lines 56-71):
`none` models an absent counter row.  Returns the value used for the id
together with the new row state. -/
def getNextCounter : Option Nat → Nat × Option Nat
  | none => (1, some 1)
  | some v => (v + 1, some (v + 1))

/-- Counter rows, one per kind (`IDCounterORM`; `counter_type` is unique). -/
structure Counters where
  project : Option Nat
  workflow : Option Nat
  task : Option Nat
  deriving DecidableEq, Repr

/-- `get_next_project_id` (id_generator.py lines 16-19). -/
def get_next_project_id (c : Counters) : String × Counters :=
  let r := getNextCounter c.project
  (formatId "PID" 6 r.1, { c with project := r.2 })

/-- `get_next_workflow_id` (id_generator.py lines 21-24). -/
def get_next_workflow_id (c : Counters) : String × Counters :=
  let r := getNextCounter c.workflow
  (formatId "WID" 8 r.1, { c with workflow := r.2 })

/-- `get_next_task_id` (id_generator.py lines 26-29). -/
def get_next_task_id (c : Counters) : String × Counters :=
  let r := getNextCounter c.task
  (formatId "TID" 10 r.1, { c with task := r.2 })

/-- Counter-row state of one kind after `j` calls, starting from an absent
row (the life of the store). -/
def counterAfterCalls : Nat → Option Nat
  | 0 => none
  | j + 1 => (getNextCounter (counterAfterCalls j)).2

/-- The value consumed by the `j`-th call (1-based) of `_get_next_id`. -/
def counterValueOfCall (j : Nat) : Nat :=
  (getNextCounter (counterAfterCalls j)).1

theorem counterAfterCalls_eq (j : Nat) :
    counterAfterCalls j = if j = 0 then none else some j := by
  induction j with
  | zero => rfl
  | succ k ih =>
      simp only [counterAfterCalls, ih]
      by_cases hk : k = 0 <;> simp [hk, getNextCounter]

theorem counterValueOfCall_eq (j : Nat) : counterValueOfCall j = j + 1 := by
  unfold counterValueOfCall
  rw [counterAfterCalls_eq]
  by_cases hj : j = 0 <;> simp [hj, getNextCounter]

theorem decDigitsAux_length_le (w : Nat) :
    ∀ fuel n, n ≤ fuel → n < 10 ^ w → (decDigitsAux fuel n).length ≤ w := by
  induction w with
  | zero =>
      intro fuel n _ hn
      have h0 : n = 0 := by omega
      cases fuel <;> simp [decDigitsAux, h0]
  | succ w ih =>
      intro fuel n hfuel hn
      cases fuel with
      | zero => simp [decDigitsAux]
      | succ f =>
          by_cases h0 : n = 0
          · simp [decDigitsAux, h0]
          · have hdiv : n / 10 < 10 ^ w := by
              apply Nat.div_lt_of_lt_mul
              calc n < 10 ^ (w + 1) := hn
                _ = 10 * 10 ^ w := by ring
            have hfl : n / 10 ≤ f := by
              have h1 : n / 10 < n := Nat.div_lt_self (Nat.pos_of_ne_zero h0) (by norm_num)
              omega
            rw [decDigitsAux, if_neg h0]
            have := ih f (n / 10) hfl hdiv
            simp only [List.length_append, List.length_cons, List.length_nil]
            omega

theorem decDigitsAux_length_gt (w : Nat) :
    ∀ fuel n, n ≤ fuel → 10 ^ w ≤ n → w < (decDigitsAux fuel n).length := by
  induction w with
  | zero =>
      intro fuel n hfuel hn
      have h0 : n ≠ 0 := by
        intro h; rw [h] at hn; simp at hn
      cases fuel with
      | zero => omega
      | succ f =>
          rw [decDigitsAux, if_neg h0]
          simp
  | succ w ih =>
      intro fuel n hfuel hn
      have hp : 0 < 10 ^ (w + 1) := pow_pos (by norm_num) _
      have h0 : n ≠ 0 := by omega
      cases fuel with
      | zero => omega
      | succ f =>
          have hdiv : 10 ^ w ≤ n / 10 := by
            rw [Nat.le_div_iff_mul_le (by norm_num : 0 < 10)]
            calc 10 ^ w * 10 = 10 ^ (w + 1) := by ring
              _ ≤ n := hn
          have hfl : n / 10 ≤ f := by
            have h1 : n / 10 < n := Nat.div_lt_self (Nat.pos_of_ne_zero h0) (by norm_num)
            omega
          rw [decDigitsAux, if_neg h0]
          have := ih f (n / 10) hfl hdiv
          simp only [List.length_append, List.length_cons, List.length_nil]
          omega

theorem natToDec_length_le {w n : Nat} (hn : n < 10 ^ w) (hw : 0 < w) :
    (natToDec n).length ≤ w := by
  unfold natToDec
  by_cases h0 : n = 0
  · rw [if_pos h0]
    have hlen : ("0" : String).length = 1 := rfl
    omega
  · rw [if_neg h0]
    show (String.mk (decDigits n)).length ≤ w
    have : (String.mk (decDigits n)).length = (decDigits n).length := rfl
    rw [this]
    exact decDigitsAux_length_le w n n le_rfl hn

theorem natToDec_length_gt {w n : Nat} (hn : 10 ^ w ≤ n) (_hw : 0 < w) :
    w < (natToDec n).length := by
  unfold natToDec
  have hp : 0 < 10 ^ w := pow_pos (by norm_num) _
  have h0 : n ≠ 0 := by omega
  rw [if_neg h0]
  show w < (String.mk (decDigits n)).length
  have : (String.mk (decDigits n)).length = (decDigits n).length := rfl
  rw [this]
  exact decDigitsAux_length_gt w n n le_rfl hn

theorem padNum_length_of_lt {w n : Nat} (hn : n < 10 ^ w) (hw : 0 < w) :
    (padNum w n).length = w := by
  unfold padNum
  have hle := natToDec_length_le hn hw
  rw [String.length_append]
  have hrep : (String.mk (List.replicate (w - (natToDec n).length) '0')).length
      = w - (natToDec n).length := by
    show (List.replicate (w - (natToDec n).length) '0').length = _
    simp
  rw [hrep]
  omega

theorem formatId_length_of_lt {w n : Nat} (pre : String)
    (hn : n < 10 ^ w) (hw : 0 < w) :
    (formatId pre w n).length = pre.length + w := by
  unfold formatId
  rw [String.length_append, padNum_length_of_lt hn hw]

theorem padNum_length_gt {w n : Nat} (hn : 10 ^ w ≤ n) (hw : 0 < w) :
    w < (padNum w n).length := by
  unfold padNum
  have hgt := natToDec_length_gt hn hw
  rw [String.length_append]
  omega

theorem padNum_length_eq (w n : Nat) :
    (padNum w n).length = (w - (natToDec n).length) + (natToDec n).length := by
  unfold padNum
  rw [String.length_append]
  have hrep : (String.mk (List.replicate (w - (natToDec n).length) '0')).length
      = w - (natToDec n).length := by
    show (List.replicate (w - (natToDec n).length) '0').length = _
    simp
  rw [hrep]

/-- **C9, counterexample.**  The claim says every identifier carries
*exactly* the kind's fixed digit count "for every counter value the
generator can reach".  The counter is incremented without bound, so the
value 1000000 is reached (on the millionth call); Python's `:06d` format
then renders seven digits, and the id `PID1000000` has length 10, not
`3 + 6 = 9`. -/
theorem c9_counterexample :
    counterValueOfCall 999999 = 1000000 ∧
    formatId "PID" 6 1000000 = "PID1000000" ∧
    ¬ (formatId "PID" 6 1000000).length = "PID".length + 6 := by
  refine ⟨counterValueOfCall_eq 999999, ?_, ?_⟩ <;> decide

/-- **C9, amended.**  Every identifier the sequential generator produces is
the kind's prefix followed by *at least* the fixed number of zero-padded
digits — exactly that number whenever the counter value is still below
`10^digits` (so below 10^6 for PID, 10^8 for WID, 10^10 for TID) — and
successive calls for the same kind return strictly increasing numeric
values. -/
theorem c9_amended (j w : Nat) (pre : String) (hw : 0 < w) :
    counterValueOfCall j < counterValueOfCall (j + 1) ∧
    pre.length + w ≤ (formatId pre w (counterValueOfCall j)).length ∧
    (counterValueOfCall j < 10 ^ w →
      (formatId pre w (counterValueOfCall j)).length = pre.length + w) := by
  refine ⟨?_, ?_, ?_⟩
  · rw [counterValueOfCall_eq, counterValueOfCall_eq]; omega
  · unfold formatId
    rw [String.length_append, padNum_length_eq]
    omega
  · intro hlt
    exact formatId_length_of_lt pre hlt hw

/-- Closed witness for `c9_amended` at the PID kind and the first call. -/
theorem c9_amended_witness :
    (0 : Nat) < 6 ∧
    (counterValueOfCall 0 < counterValueOfCall (0 + 1) ∧
      "PID".length + 6 ≤ (formatId "PID" 6 (counterValueOfCall 0)).length ∧
      (counterValueOfCall 0 < 10 ^ 6 →
        (formatId "PID" 6 (counterValueOfCall 0)).length = "PID".length + 6)) :=
  ⟨by decide, c9_amended 0 6 "PID" (by decide)⟩

/-! ### In-process file-lock registry (`core/file_lock.py`)

`FileAccessManager` keeps `_active_locks : Dict[path, info]` — *one entry
per path* — and a set `_lock_registry` of `path:accessType` keys.
`acquire_file_lock` (lines 54-148) checks `_can_acquire_lock`, then
registers; the context manager's `finally` block unregisters.  We model
the coordinator as a state machine whose steps are grants and releases,
with a ghost `holders` list recording which grants are still open (the
handles yielded and not yet closed). -/

structure LockInfo where
  access_type : String
  client_id : String
  deriving DecidableEq, Repr

structure RegState where
  active_locks : List (String × LockInfo)
  lock_registry : List String
  holders : List (String × String × String)
  deriving DecidableEq, Repr

/-- The empty registry (`FileAccessManager.__init__`, lines 49-52). -/
def lockInit : RegState := ⟨[], [], []⟩

/-- `_can_acquire_lock` (file_lock.py lines 150-175): iterate all entries
of `_active_locks`; on a path match, refuse when either side is
`exclusive` or `write`; a read/read match just continues. -/
def canAcquireLock (locks : List (String × LockInfo)) (path acc : String) : Bool :=
  locks.all (fun e =>
    decide (e.1 ≠ path) ||
    decide (¬ (e.2.access_type = "exclusive" ∨ acc = "exclusive" ∨
               e.2.access_type = "write" ∨ acc = "write")))

/-- Python dict assignment `self._active_locks[file_path] = {...}`
(file_lock.py lines 204-210): at most one entry per path, the latest wins. -/
def dictInsert (k : String) (v : LockInfo) (d : List (String × LockInfo)) :
    List (String × LockInfo) :=
  (k, v) :: d.filter (fun e => decide (e.1 ≠ k))

/-- Python `set.add` for the `path:accessType` registry (line 211). -/
def registryAdd (k : String) (l : List String) : List String :=
  if k ∈ l then l else k :: l

inductive LockEvent where
  | acquire (path acc client : String)
  | release (path acc client : String)
  deriving DecidableEq, Repr

/-- One step of the coordinator.  A grant succeeds only if
`_can_acquire_lock` allows it (otherwise `FileLockError` is raised — the
step is refused); it then runs `_register_lock` (lines 204-211) and opens
a holder.  A release runs `_unregister_lock` (lines 213-220): it deletes
the *whole* per-path entry of `_active_locks` and the `path:accessType`
key, and closes that holder's grant. -/
def lockStep (st : RegState) : LockEvent → Option RegState
  | .acquire path acc client =>
      if canAcquireLock st.active_locks path acc then
        some { active_locks := dictInsert path ⟨acc, client⟩ st.active_locks,
               lock_registry := registryAdd (path ++ ":" ++ acc) st.lock_registry,
               holders := (path, acc, client) :: st.holders }
      else none
  | .release path acc client =>
      some { active_locks := st.active_locks.filter (fun e => decide (e.1 ≠ path)),
             lock_registry :=
               st.lock_registry.filter (fun k => decide (k ≠ path ++ ":" ++ acc)),
             holders := st.holders.erase (path, acc, client) }

/-- Run a sequence of grant/release events; `none` when some grant was
refused. -/
def runLockTrace (st : RegState) : List LockEvent → Option RegState
  | [] => some st
  | e :: es =>
      match lockStep st e with
      | none => none
      | some st2 => runLockTrace st2 es

/-- Compatibility of two simultaneously open holders, as the specification
states it (I7): on the same path both must be `read`. -/
def pairCompat (a b : String × String × String) : Bool :=
  decide (a.1 = b.1 → (a.2.1 = "read" ∧ b.2.1 = "read"))

/-- The claimed invariant: any two simultaneously open holders on the same
path are both reads. -/
def holdersOk : List (String × String × String) → Bool
  | [] => true
  | h :: t => (t.all (fun x => pairCompat h x)) && holdersOk t

/-- **C7, code bug.**  Reachable violation of the lock-compatibility
invariant: client A and client B both acquire `read` on `/tmp/x` (the
second grant overwrites the single per-path registry entry); A releases,
and `_unregister_lock` deletes the whole per-path entry even though B
still holds its grant; client C's `write` grant is then allowed while B's
read is still open.  The final state holds a `write` and a `read`
simultaneously on the same path, which the claim (and the docstring of
`_can_acquire_lock`) forbids. -/
theorem c7_code_bug :
    runLockTrace lockInit
      [LockEvent.acquire "/tmp/x" "read" "A",
       LockEvent.acquire "/tmp/x" "read" "B",
       LockEvent.release "/tmp/x" "read" "A",
       LockEvent.acquire "/tmp/x" "write" "C"] =
      some { active_locks := [("/tmp/x", ⟨"write", "C"⟩)],
             lock_registry := ["/tmp/x:write"],
             holders := [("/tmp/x", "write", "C"), ("/tmp/x", "read", "B")] } ∧
    holdersOk [("/tmp/x", "write", "C"), ("/tmp/x", "read", "B")] = false := by
  decide

/-! ### The relational store (`orm.py`, `Demo4/agent_manager/service.py`)

Rows are modelled with the columns the core logic reads or writes.  Task
rows are keyed by their external `step_id` (the `TID…` string; the
`(workflow_id, step_id)` pair is unique by the `uq_workflow_step`
constraint, and ids issued by the generator are globally unique).  The
opaque RA-history `iterations` payload of a result row is not modelled:
the spec calls it "opaque to the core except as payload" and no core
branch reads it. -/

structure TaskStepRow where
  step_id : String
  workflow_id : String
  task_name : String
  task_description : String
  assigned_agent : String
  dependencies : List String
  project_path : Option String
  status : TaskStatus
  client_id : Option String
  started_at : Option Nat
  completed_at : Option Nat
  created_at : Nat
  deriving DecidableEq, Repr

/-- `TaskGraphORM`. -/
structure WorkflowRow where
  workflow_id : String
  workflow_name : String
  user_request : String
  workflow_metadata : Meta
  status : String
  project_id : Option String
  created_at : Nat
  deriving DecidableEq, Repr

/-- `ProjectORM` (the columns `update_project_status_if_complete` uses). -/
structure ProjectRow where
  project_id : String
  project_name : String
  status : String
  deriving DecidableEq, Repr

/-- `ResultORM` (`task_step_id` references the producing task row). -/
structure ResultRow where
  task_step_id : String
  final_result : String
  source_agent : String
  client_id : String
  execution_time : Nat
  created_at : Nat
  deriving DecidableEq, Repr

/-- The relational store. -/
structure DBState where
  counters : Counters
  projects : List ProjectRow
  workflows : List WorkflowRow
  tasks : List TaskStepRow
  results : List ResultRow
  deriving DecidableEq, Repr

/-- Empty store. -/
def dbEmpty : DBState := ⟨⟨none, none, none⟩, [], [], [], []⟩

/-! #### `save_task_graph` (service.py lines 89-158) -/

/-- A task of the in-memory `TaskGraph` before persistence (transient
`step_id`). -/
structure TaskStepInput where
  step_id : String
  task_name : String
  task_description : String
  assigned_agent : String
  dependencies : List String
  project_path : Option String
  status : TaskStatus
  created_at : Nat
  deriving DecidableEq, Repr

/-- The in-memory `TaskGraph` handed to `save_task_graph`. -/
structure TaskGraphInput where
  workflow_id : String
  workflow_name : String
  tasks : List TaskStepInput
  created_at : Nat
  metadata : Meta
  deriving DecidableEq, Repr

/-- `dict.get` on the `step_id_mapping`. -/
def strLookup (m : List (String × String)) (k : String) : Option String :=
  (m.find? (fun e => decide (e.1 = k))).map Prod.snd

/-- The per-task loop of `save_task_graph` (lines 126-147): allocate the
next sequential task id, extend `step_id_mapping`, rewrite dependencies
with `step_id_mapping.get(dep, dep)` — the mapping built *so far*, so a
dependency on a task later in the list falls back to the transient id —
and build the row. -/
def saveTasksLoop (wid : String) :
    List TaskStepInput → Counters → List (String × String) →
    Counters × List TaskStepRow
  | [], c, _ => (c, [])
  | t :: ts, c, mapping =>
      let r := get_next_task_id c
      let mapping2 := (t.step_id, r.1) :: mapping
      let deps := t.dependencies.map (fun d => (strLookup mapping2 d).getD d)
      let row : TaskStepRow :=
        { step_id := r.1, workflow_id := wid, task_name := t.task_name,
          task_description := t.task_description,
          assigned_agent := t.assigned_agent, dependencies := deps,
          project_path := t.project_path, status := t.status,
          client_id := none, started_at := none, completed_at := none,
          created_at := t.created_at }
      let rest := saveTasksLoop wid ts r.2 mapping2
      (rest.1, row :: rest.2)

/-- `save_task_graph` (lines 89-158): allocate a sequential workflow id,
insert the workflow row (status `IN_PROGRESS`, `user_request` from the
metadata), then insert one row per task through `saveTasksLoop`. -/
def save_task_graph (g : TaskGraphInput) (project_uuid : Option String)
    (s : DBState) : DBState × String :=
  let rw := get_next_workflow_id s.counters
  let wfRow : WorkflowRow :=
    { workflow_id := rw.1, workflow_name := g.workflow_name,
      user_request :=
        (match metaLookup "user_request" g.metadata with
         | some (MetaVal.s v) => v
         | _ => ""),
      workflow_metadata := g.metadata, status := "IN_PROGRESS",
      project_id := project_uuid, created_at := g.created_at }
  let res := saveTasksLoop rw.1 g.tasks rw.2 []
  ({ s with counters := res.1,
            workflows := s.workflows ++ [wfRow],
            tasks := s.tasks ++ res.2 }, rw.1)

/-! #### `get_and_claim_ready_task` (service.py lines 240-371) -/

/-- The `WHERE` predicate of the generic claim query (lines 305-313):
status READY, `assigned_agent` in the caller's capabilities, `client_id`
null. -/
def isCandidate (caps : List String) (r : TaskStepRow) : Bool :=
  decide (r.status = TaskStatus.READY ∧ r.assigned_agent ∈ caps ∧
          r.client_id = none)

/-- `ORDER BY created_at LIMIT 1`: a row with minimal `created_at` (the
first such in row order — ties are unordered in SQL, and any minimal row
is a faithful refinement). -/
def pickOldest : List TaskStepRow → Option TaskStepRow
  | [] => none
  | r :: rs =>
      match pickOldest rs with
      | none => some r
      | some b => if r.created_at ≤ b.created_at then some r else some b

/-- `_check_dependencies_satisfied` (lines 373-393): count sibling rows
whose `step_id` is in the dependency list and whose status is COMPLETED,
and compare with the length of the dependency list. -/
def depsSatisfied (tasks : List TaskStepRow) (r : TaskStepRow) : Bool :=
  if r.dependencies.isEmpty then true
  else decide ((tasks.filter (fun t =>
         decide (t.workflow_id = r.workflow_id ∧ t.step_id ∈ r.dependencies ∧
                 t.status = TaskStatus.COMPLETED))).length
       = r.dependencies.length)

/-- The claimed-row update (lines 330-332): status IN_PROGRESS, claiming
client, `started_at = now`. -/
def claimRow (client : String) (now : Nat) (r : TaskStepRow) : TaskStepRow :=
  { r with status := TaskStatus.IN_PROGRESS, client_id := some client,
           started_at := some now }

/-- The generic branch of `get_and_claim_ready_task` (lines 304-366):
lock-select the oldest candidate, re-verify its dependencies (returning
nothing and leaving the store unchanged when the check fails), otherwise
claim it and return it.  The row is updated in place (the ORM updates the
selected row by primary key; with distinct `step_id`s the keyed update
below coincides). -/
def genericClaim (s : DBState) (caps : List String) (client : String)
    (now : Nat) : DBState × Option TaskStepRow :=
  match pickOldest (s.tasks.filter (isCandidate caps)) with
  | none => (s, none)
  | some t =>
      if depsSatisfied s.tasks t then
        ({ s with tasks := s.tasks.map (fun r =>
             if r.step_id = t.step_id then claimRow client now r else r) },
         some (claimRow client now t))
      else (s, none)

/-- `get_and_claim_ready_task` (lines 240-371).  The preferred branch
(lines 264-302) selects the preferred row under the same predicate; when a
row is found it calls `self._check_task_dependencies_satisfied`, a method
that does not exist anywhere in the class — the `AttributeError` is caught
by the handler at lines 368-371, which rolls back and returns nothing.
When no preferred row matches, control falls through to the generic
query. -/
def get_and_claim_ready_task (s : DBState) (caps : List String)
    (client : String) (preferred : Option String) (now : Nat) :
    DBState × Option TaskStepRow :=
  match preferred with
  | some pid =>
      match s.tasks.find? (fun r =>
          decide (r.step_id = pid ∧ r.status = TaskStatus.READY ∧
                  r.assigned_agent ∈ caps ∧ r.client_id = none)) with
      | some _ => (s, none)
      | none => genericClaim s caps client now
  | none => genericClaim s caps client now

/-! #### `save_task_result` and the completion cascade
(service.py lines 395-472, 523-657) -/

/-- The task-result envelope (`TaskResult` with its `RAHistory`
flattened to the fields the store keeps). -/
structure TaskResultInput where
  workflow_id : String
  task_id : String
  final_result : String
  source_agent : String
  client_id : String
  execution_time : Nat
  completed_at : Nat
  deriving DecidableEq, Repr

/-- `is_workflow_complete` (lines 523-560): positive task count and every
task COMPLETED. -/
def is_workflow_complete (s : DBState) (wid : String) : Bool :=
  let total := (s.tasks.filter (fun t => decide (t.workflow_id = wid))).length
  let completed := (s.tasks.filter (fun t =>
      decide (t.workflow_id = wid ∧ t.status = TaskStatus.COMPLETED))).length
  decide (0 < total ∧ total = completed)

/-- `update_workflow_status_if_complete` (lines 562-605). -/
def update_workflow_status_if_complete (s : DBState) (wid : String) :
    DBState × Bool :=
  if is_workflow_complete s wid then
    match s.workflows.find? (fun w => decide (w.workflow_id = wid)) with
    | none => (s, false)
    | some w =>
        if w.status = "COMPLETED" then (s, false)
        else
          ({ s with workflows := s.workflows.map (fun x =>
               if x.workflow_id = wid then { x with status := "COMPLETED" }
               else x) }, true)
  else (s, false)

/-- `update_project_status_if_complete` (lines 607-657). -/
def update_project_status_if_complete (s : DBState) (pid : String) :
    DBState × Bool :=
  match s.projects.find? (fun p => decide (p.project_id = pid)) with
  | none => (s, false)
  | some p =>
      let wfs := s.workflows.filter (fun w => decide (w.project_id = some pid))
      if wfs.isEmpty then (s, false)
      else if wfs.all (fun w => decide (w.status = "COMPLETED")) ∧
              p.status ≠ "COMPLETED" then
        ({ s with projects := s.projects.map (fun x =>
             if x.project_id = pid then { x with status := "COMPLETED" }
             else x) }, true)
      else (s, false)

/-- `save_task_result` (lines 395-472): locate the task row (false when
absent), insert the result row, flip the task to COMPLETED, commit, then
run the workflow / project completion cascade.  `dbFail` injects an
exception inside the transaction (e.g. a database error on the insert or
update); the handler at lines 469-472 rolls the transaction back and
*returns false* — it does not re-raise. -/
def save_task_result (r : TaskResultInput) (dbFail : Bool) (s : DBState) :
    DBState × Bool :=
  match s.tasks.find? (fun t =>
      decide (t.workflow_id = r.workflow_id ∧ t.step_id = r.task_id)) with
  | none => (s, false)
  | some t =>
      if dbFail then (s, false)
      else
        let resultRow : ResultRow :=
          { task_step_id := t.step_id, final_result := r.final_result,
            source_agent := r.source_agent, client_id := r.client_id,
            execution_time := r.execution_time, created_at := r.completed_at }
        let s1 : DBState :=
          { s with results := s.results ++ [resultRow],
                   tasks := s.tasks.map (fun x =>
                     if x.workflow_id = r.workflow_id ∧ x.step_id = r.task_id
                     then { x with status := TaskStatus.COMPLETED,
                                   completed_at := some r.completed_at }
                     else x) }
        let project_id :=
          (s.workflows.find? (fun w =>
            decide (w.workflow_id = r.workflow_id))).bind WorkflowRow.project_id
        let s2 := update_workflow_status_if_complete s1 r.workflow_id
        let s3 :=
          if s2.2 then
            match project_id with
            | some pid => (update_project_status_if_complete s2.1 pid).1
            | none => s2.1
          else s2.1
        (s3, true)

/-! #### `reset_tasks_for_rework` (service.py lines 738-810) -/

/-- The per-row effect of the two sequential `UPDATE` statements: first
every COMPLETED task of the workflow goes back to PENDING with client,
started and completed cleared (lines 756-773); then every task of the
workflow with an empty dependency list — *whatever its status and without
clearing anything* — is set READY (lines 775-787). -/
def resetRow (wid : String) (r : TaskStepRow) : TaskStepRow :=
  let r1 :=
    if r.workflow_id = wid ∧ r.status = TaskStatus.COMPLETED then
      { r with status := TaskStatus.PENDING, client_id := none,
               started_at := none, completed_at := none }
    else r
  if r1.workflow_id = wid ∧ r1.dependencies = [] then
    { r1 with status := TaskStatus.READY }
  else r1

/-- `reset_tasks_for_rework` (lines 738-810): the two task updates, then
the jsonb merge `workflow_metadata || {'rework_suggestions': …,
'rework_timestamp': now}` on the workflow row (lines 789-801).  Result
rows are not touched.  Returns true. -/
def reset_tasks_for_rework (wid : String) (suggestions : List String)
    (now : Nat) (s : DBState) : DBState × Bool :=
  ({ s with
      tasks := s.tasks.map (resetRow wid),
      workflows := s.workflows.map (fun w =>
        if w.workflow_id = wid then
          { w with workflow_metadata :=
              (metaInsert "rework_timestamp" (MetaVal.n now)
                (metaInsert "rework_suggestions" (MetaVal.strs suggestions)
                  w.workflow_metadata)) }
        else w) }, true)

/-! #### Planning fallback (`core/manager.py` lines 450-477, 549-576) -/

/-- `user_request[:50] + ("..." if len(user_request) > 50 else "")`. -/
def truncatedName (req : String) : String :=
  if req.length > 50 then req.take 50 ++ "..." else req

/-- `_create_fallback_workflow` (manager.py lines 549-576): placeholder
ids, workflow name from metadata or the truncated request, and a single
READY task for agent `analyst` whose description is
`f"Complete the user request: {user_request}"`. -/
def create_fallback_workflow (userRequest : String) (metadata : Option Meta)
    (now : Nat) : TaskGraphInput :=
  let workflow_name :=
    match metadata with
    | some m =>
        match metaLookup "workflow_name" m with
        | some (MetaVal.s v) => if v = "" then truncatedName userRequest else v
        | _ => truncatedName userRequest
    | none => truncatedName userRequest
  { workflow_id := "WID_PENDING", workflow_name := workflow_name,
    tasks := [{ step_id := "TID_PENDING", task_name := "Untitled Task",
                task_description := "Complete the user request: " ++ userRequest,
                assigned_agent := "analyst", dependencies := [],
                project_path := none, status := TaskStatus.READY,
                created_at := now }],
    created_at := now,
    metadata :=
      match metadata with
      | some m => if m = [] then [("fallback", MetaVal.b true)] else m
      | none => [("fallback", MetaVal.b true)] }

/-- The `except` branch of `plan_and_save_task` (manager.py lines
450-477) with a database service present: when the LLM call raises, build
the fallback workflow and persist it with `save_task_graph` (no project
link), returning the allocated workflow id. -/
def plan_and_save_task_llm_fails (userRequest : String)
    (metadata : Option Meta) (now : Nat) (s : DBState) : DBState × String :=
  let g := create_fallback_workflow userRequest metadata now
  save_task_graph g none s

/-! ### Sample rows shared by concrete evaluations -/

/-- A single READY task with no dependencies in workflow `W`. -/
def sampleTask : TaskStepRow :=
  { step_id := "TID1", workflow_id := "W", task_name := "t",
    task_description := "d", assigned_agent := "analyst",
    dependencies := [], project_path := none, status := TaskStatus.READY,
    client_id := none, started_at := none, completed_at := none,
    created_at := 0 }

def sampleWorkflow : WorkflowRow :=
  { workflow_id := "W", workflow_name := "w", user_request := "r",
    workflow_metadata := [], status := "IN_PROGRESS", project_id := none,
    created_at := 0 }

/-- A store holding workflow `W` with the single task `TID1`. -/
def sampleStore : DBState :=
  { dbEmpty with workflows := [sampleWorkflow], tasks := [sampleTask] }

/-- A result envelope for `TID1`. -/
def sampleResult : TaskResultInput :=
  { workflow_id := "W", task_id := "TID1", final_result := "ok",
    source_agent := "analyst", client_id := "c", execution_time := 1,
    completed_at := 2 }

/-- A two-task graph whose first task depends on the second: the
dependency is a *forward* reference in list order. -/
def fwdRefGraph : TaskGraphInput :=
  { workflow_id := "WID_PENDING", workflow_name := "w",
    tasks := [
      { step_id := "a", task_name := "A", task_description := "da",
        assigned_agent := "analyst", dependencies := ["b"],
        project_path := none, status := TaskStatus.PENDING, created_at := 0 },
      { step_id := "b", task_name := "B", task_description := "db",
        assigned_agent := "analyst", dependencies := [],
        project_path := none, status := TaskStatus.READY, created_at := 0 }],
    created_at := 0, metadata := [] }

/-- **C2, code bug.**  `save_task_graph` rewrites dependencies with the
`step_id_mapping` built *incrementally* in list order
(`step_id_mapping.get(dep, dep)`, service.py line 133), so a dependency
referencing a task that appears later in the input list is left as the
transient in-memory id.  On `fwdRefGraph` the persisted first task keeps
dependency `"b"`, while the referenced task was allocated
`TID0000000002`; no persisted row carries step id `"b"`, so the stored
reference is dangling (the task can then never be dispatched, since
readiness compares dependencies against persisted COMPLETED step ids). -/
theorem c2_code_bug :
    ((save_task_graph fwdRefGraph none dbEmpty).1.tasks.map
        (fun r => (r.step_id, r.dependencies)))
      = [("TID0000000001", ["b"]), ("TID0000000002", [])] ∧
    ((save_task_graph fwdRefGraph none dbEmpty).1.tasks.all
        (fun r => decide (r.step_id ≠ "b"))) = true := by
  decide

/-- **C3, counterexample.**  The claim says `save_task_result` returns
false *iff* the task row is missing, and that exceptional failures are
raised.  With the task `TID1` present and a database error during the
transaction, the source catches the exception (service.py lines 469-472),
rolls back and returns false — so false is returned although the row
exists, and no error propagates.  The store is left unchanged
(rollback). -/
theorem c3_counterexample :
    (sampleStore.tasks.find? (fun t =>
        decide (t.workflow_id = sampleResult.workflow_id ∧
                t.step_id = sampleResult.task_id))).isSome = true ∧
    (save_task_result sampleResult true sampleStore).2 = false ∧
    (save_task_result sampleResult true sampleStore).1 = sampleStore := by
  decide

/-- **C3, amended.**  `save_task_result` returns false iff the referenced
task row does not exist *or* an exceptional failure occurs during the
save; a failure is swallowed (returned as false after rollback), never
raised, and in every false-returning case the task's status and the
results table — the whole store — are left unchanged. -/
theorem c3_amended (r : TaskResultInput) (fail : Bool) (s : DBState) :
    ((save_task_result r fail s).2 = false ↔
      ((s.tasks.find? (fun t =>
          decide (t.workflow_id = r.workflow_id ∧ t.step_id = r.task_id)))
          = none ∨ fail = true)) ∧
    (((s.tasks.find? (fun t =>
          decide (t.workflow_id = r.workflow_id ∧ t.step_id = r.task_id)))
          = none ∨ fail = true) →
        (save_task_result r fail s).1 = s) := by
  unfold save_task_result
  cases hf : s.tasks.find? (fun t =>
      decide (t.workflow_id = r.workflow_id ∧ t.step_id = r.task_id)) with
  | none => simp
  | some t => cases fail <;> simp

/-- **C4, counterexample.**  Complete `TID1`, reset the workflow for
rework, complete it again: after the reset the result row is still there
(length 1 — nothing was discarded), and after the re-completion the task
has *two* result rows, so "at most one Result row per task" fails in a
reachable state. -/
theorem c4_counterexample :
    ((reset_tasks_for_rework "W" [] 5
        (save_task_result sampleResult false sampleStore).1).1.results.length
      = 1) ∧
    (((save_task_result sampleResult false
        (reset_tasks_for_rework "W" [] 5
          (save_task_result sampleResult false sampleStore).1).1).1.results.filter
        (fun x => decide (x.task_step_id = "TID1"))).length = 2) := by
  decide

/-- **C4, amended.**  `reset_tasks_for_rework` leaves the results table
untouched: a reset task keeps its Result row, and each re-completion
through `save_task_result` appends another, so a task accumulates one
Result row per completion (the `ondelete=CASCADE` on
`results.task_step_id` only fires when a task *row* is deleted, which
rework never does). -/
theorem c4_amended (wid : String) (suggestions : List String) (now : Nat)
    (s : DBState) :
    (reset_tasks_for_rework wid suggestions now s).1.results = s.results := by
  rfl

/-- **C6, counterexample.**  The fallback task's description is
`"Complete the user request: "` followed by the request (manager.py line
563), not the request itself. -/
theorem c6_counterexample :
    ((plan_and_save_task_llm_fails "x" none 3 dbEmpty).1.tasks.map
        TaskStepRow.task_description) = ["Complete the user request: x"] ∧
    ¬ ((plan_and_save_task_llm_fails "x" none 3 dbEmpty).1.tasks.map
        TaskStepRow.task_description) = ["x"] := by
  decide

/-- **C6, amended.**  When the LLM gateway raises during planning,
`plan_and_save_task` still returns normally with a freshly allocated
workflow id, and the persisted fallback workflow contains exactly one
task, with no dependencies, status READY, assigned agent `analyst`, and a
description equal to `"Complete the user request: "` followed by the user
request. -/
theorem c6_amended (req : String) (meta : Option Meta) (now : Nat)
    (s : DBState) :
    (plan_and_save_task_llm_fails req meta now s).2 =
        formatId "WID" 8 (getNextCounter s.counters.workflow).1 ∧
    (plan_and_save_task_llm_fails req meta now s).1.tasks =
      s.tasks ++
        [{ step_id := formatId "TID" 10 (getNextCounter s.counters.task).1,
           workflow_id := formatId "WID" 8 (getNextCounter s.counters.workflow).1,
           task_name := "Untitled Task",
           task_description := "Complete the user request: " ++ req,
           assigned_agent := "analyst", dependencies := [],
           project_path := none, status := TaskStatus.READY,
           client_id := none, started_at := none, completed_at := none,
           created_at := now }] := by
  constructor <;> rfl

/-! ### Rework idempotence (C5) -/


theorem metaErase_cons_of_eq (k a : String) (v : MetaVal) (m : Meta)
    (h : a = k) : metaErase k ((a, v) :: m) = metaErase k m := by
  simp [metaErase, h]

theorem metaErase_cons_of_ne (k a : String) (v : MetaVal) (m : Meta)
    (h : a ≠ k) : metaErase k ((a, v) :: m) = (a, v) :: metaErase k m := by
  simp [metaErase, h]

theorem metaErase_idem (k : String) (m : Meta) :
    metaErase k (metaErase k m) = metaErase k m := by
  induction m with
  | nil => rfl
  | cons e t ih =>
      cases e with
      | mk a b =>
          by_cases h : a = k
          · rw [metaErase_cons_of_eq k a b t h, ih]
          · rw [metaErase_cons_of_ne k a b t h,
                metaErase_cons_of_ne k a b (metaErase k t) h, ih]

theorem metaErase_comm (k j : String) (m : Meta) :
    metaErase k (metaErase j m) = metaErase j (metaErase k m) := by
  induction m with
  | nil => rfl
  | cons e t ih =>
      cases e with
      | mk a b =>
          by_cases hj : a = j <;> by_cases hk : a = k
          · rw [metaErase_cons_of_eq j a b t hj, metaErase_cons_of_eq k a b t hk, ih]
          · rw [metaErase_cons_of_eq j a b t hj,
                metaErase_cons_of_ne k a b t hk,
                metaErase_cons_of_eq j a b (metaErase k t) hj, ih]
          · rw [metaErase_cons_of_ne j a b t hj,
                metaErase_cons_of_eq k a b t hk,
                metaErase_cons_of_eq k a b (metaErase j t) hk, ih]
          · rw [metaErase_cons_of_ne j a b t hj,
                metaErase_cons_of_ne k a b (metaErase j t) hk,
                metaErase_cons_of_ne k a b t hk,
                metaErase_cons_of_ne j a b (metaErase k t) hj, ih]

theorem metaErase_cancel (k1 k2 : String) (m : Meta) :
    metaErase k2 (metaErase k1 (metaErase k2 m)) =
      metaErase k2 (metaErase k1 m) := by
  rw [metaErase_comm k1 k2 m, metaErase_idem k2 (metaErase k1 m),
      metaErase_comm k2 k1 m]

theorem metaInsert_four (k1 k2 : String) (h : k1 ≠ k2)
    (v1 v1' v2 v2' : MetaVal) (m : Meta) :
    metaInsert k2 v2' (metaInsert k1 v1'
        (metaInsert k2 v2 (metaInsert k1 v1 m))) =
      metaInsert k2 v2' (metaInsert k1 v1' m) := by
  have h21 : k2 ≠ k1 := fun hc => h hc.symm
  have e1 : ∀ (v : MetaVal) (x : Meta),
      metaErase k2 ((k1, v) :: x) = (k1, v) :: metaErase k2 x :=
    fun v x => metaErase_cons_of_ne k2 k1 v x h
  have e2 : ∀ (v : MetaVal) (x : Meta),
      metaErase k1 ((k2, v) :: x) = (k2, v) :: metaErase k1 x :=
    fun v x => metaErase_cons_of_ne k1 k2 v x h21
  have e3 : ∀ (v : MetaVal) (x : Meta),
      metaErase k1 ((k1, v) :: x) = metaErase k1 x :=
    fun v x => metaErase_cons_of_eq k1 k1 v x rfl
  have e4 : ∀ (v : MetaVal) (x : Meta),
      metaErase k2 ((k2, v) :: x) = metaErase k2 x :=
    fun v x => metaErase_cons_of_eq k2 k2 v x rfl
  simp only [metaInsert, e1, e2, e3, e4]
  rw [metaErase_cancel k1 k2 (metaErase k1 m), metaErase_idem k1 m]

theorem resetRow_idem (wid : String) (r : TaskStepRow) :
    resetRow wid (resetRow wid r) = resetRow wid r := by
  unfold resetRow
  by_cases hw : r.workflow_id = wid <;>
    by_cases hs : r.status = TaskStatus.COMPLETED <;>
      by_cases hd : r.dependencies = [] <;>
        simp [hw, hs, hd]

/-- **C5, counterexample.**  `reset_tasks_for_rework` stamps
`rework_timestamp` with the invocation time into the workflow metadata
(service.py lines 789-799), so invoking it twice (at times 0 and then 1)
with the same workflow id and suggestions leaves the workflow metadata —
hence the store — different from one invocation at time 0. -/
theorem c5_counterexample :
    ¬ ((reset_tasks_for_rework "W" [] 1
          (reset_tasks_for_rework "W" [] 0 sampleStore).1).1 =
        (reset_tasks_for_rework "W" [] 0 sampleStore).1) := by
  decide

/-- **C5, amended.**  `ResetTasksForRework` is idempotent up to the rework
timestamp: invoking it twice in succession with the same workflow id and
suggestions leaves the store (task statuses and fields, and the workflow
metadata) in exactly the state of a single invocation performed at the
time of the second call.  In particular the task table is genuinely
idempotent; only the `rework_timestamp` metadata key reflects the later
call. -/
theorem c5_amended (wid : String) (sugg : List String) (t1 t2 : Nat)
    (s : DBState) :
    reset_tasks_for_rework wid sugg t2
        (reset_tasks_for_rework wid sugg t1 s).1 =
      reset_tasks_for_rework wid sugg t2 s := by
  unfold reset_tasks_for_rework
  simp only [Prod.mk.injEq, and_true]
  have hts : ("rework_suggestions" : String) ≠ "rework_timestamp" := by decide
  congr 1
  · rw [List.map_map]
    apply List.map_congr_left
    intro w _
    by_cases h : w.workflow_id = wid
    · simp only [Function.comp_apply, h, if_true, reduceIte]
      congr 1
      exact metaInsert_four "rework_suggestions" "rework_timestamp" hts
        (MetaVal.strs sugg) (MetaVal.strs sugg) (MetaVal.n t1) (MetaVal.n t2)
        w.workflow_metadata
    · simp only [Function.comp_apply, h, if_false, reduceIte]
  · rw [List.map_map]
    apply List.map_congr_left
    intro r _
    exact resetRow_idem wid r

/-! ### Claim ordering (C8) -/

theorem pickOldest_eq_none {l : List TaskStepRow}
    (h : pickOldest l = none) : l = [] := by
  cases l with
  | nil => rfl
  | cons r rs =>
      simp only [pickOldest] at h
      cases hp : pickOldest rs with
      | none => rw [hp] at h; simp at h
      | some b =>
          rw [hp] at h
          by_cases hc : r.created_at ≤ b.created_at <;> simp [hc] at h

theorem pickOldest_mem : ∀ {l : List TaskStepRow} {t : TaskStepRow},
    pickOldest l = some t → t ∈ l := by
  intro l
  induction l with
  | nil => intro t h; simp [pickOldest] at h
  | cons r rs ih =>
      intro t h
      cases hp : pickOldest rs with
      | none =>
          simp only [pickOldest, hp, Option.some.injEq] at h
          subst h
          exact List.mem_cons_self r rs
      | some b =>
          simp only [pickOldest, hp] at h
          by_cases hc : r.created_at ≤ b.created_at
          · rw [if_pos hc] at h
            simp only [Option.some.injEq] at h
            subst h
            exact List.mem_cons_self r rs
          · rw [if_neg hc] at h
            simp only [Option.some.injEq] at h
            subst h
            exact List.mem_cons_of_mem r (ih hp)

theorem pickOldest_min : ∀ {l : List TaskStepRow} {t : TaskStepRow},
    pickOldest l = some t → ∀ u ∈ l, t.created_at ≤ u.created_at := by
  intro l
  induction l with
  | nil => intro t h; simp [pickOldest] at h
  | cons r rs ih =>
      intro t h u hu
      cases hp : pickOldest rs with
      | none =>
          have hrs : rs = [] := pickOldest_eq_none hp
          simp only [pickOldest, hp, Option.some.injEq] at h
          subst hrs
          simp only [List.mem_singleton] at hu
          rw [← h, hu]
      | some b =>
          simp only [pickOldest, hp] at h
          rcases List.mem_cons.mp hu with hur | hurs
          · by_cases hc : r.created_at ≤ b.created_at
            · rw [if_pos hc] at h
              simp only [Option.some.injEq] at h
              rw [← h, hur]
            · rw [if_neg hc] at h
              simp only [Option.some.injEq] at h
              rw [← h, hur]
              omega
          · have hb := ih hp u hurs
            by_cases hc : r.created_at ≤ b.created_at
            · rw [if_pos hc] at h
              simp only [Option.some.injEq] at h
              rw [← h]
              omega
            · rw [if_neg hc] at h
              simp only [Option.some.injEq] at h
              rw [← h]
              exact hb

/-- **C8 (confirmed).**  Whenever `get_and_claim_ready_task` returns a
task (with no preferred task id supplied), the returned task is the
claimed copy of a stored row that was READY, capability-matched and
unclaimed, and no other stored row satisfying that same predicate has a
strictly smaller `created_at`: claims within a capability match are FIFO
by `created_at`. -/
theorem c8_fifo_claim (s : DBState) (caps : List String) (client : String)
    (now : Nat) (t : TaskStepRow)
    (h : (get_and_claim_ready_task s caps client none now).2 = some t) :
    ∃ row ∈ s.tasks,
      t = claimRow client now row ∧
      row.status = TaskStatus.READY ∧ row.assigned_agent ∈ caps ∧
      row.client_id = none ∧
      ∀ u ∈ s.tasks, u.status = TaskStatus.READY → u.assigned_agent ∈ caps →
        u.client_id = none → row.created_at ≤ u.created_at := by
  simp only [get_and_claim_ready_task, genericClaim] at h
  cases hp : pickOldest (s.tasks.filter (isCandidate caps)) with
  | none =>
      simp only [hp] at h
      exact absurd h (by simp)
  | some t0 =>
      simp only [hp] at h
      by_cases hd : depsSatisfied s.tasks t0 = true
      · rw [if_pos hd] at h
        simp only [Option.some.injEq] at h
        have hmem := pickOldest_mem hp
        have hmin := pickOldest_min hp
        rcases List.mem_filter.mp hmem with ⟨hm, hcand⟩
        simp only [isCandidate, decide_eq_true_eq] at hcand
        refine ⟨t0, hm, h.symm, hcand.1, hcand.2.1, hcand.2.2, ?_⟩
        intro u hu hrdy hagent hcli
        have hucand : u ∈ s.tasks.filter (isCandidate caps) :=
          List.mem_filter.mpr ⟨hu, by
            simp only [isCandidate, decide_eq_true_eq]
            exact ⟨hrdy, hagent, hcli⟩⟩
        exact hmin u hucand
      · rw [if_neg hd] at h
        simp only at h
        exact absurd h (by simp)

/-- Closed witness for `c8_fifo_claim` on `sampleStore`. -/
theorem c8_fifo_claim_witness :
    (get_and_claim_ready_task sampleStore ["analyst"] "cl" none 7).2 =
        some (claimRow "cl" 7 sampleTask) ∧
    (∃ row ∈ sampleStore.tasks,
      claimRow "cl" 7 sampleTask = claimRow "cl" 7 row ∧
      row.status = TaskStatus.READY ∧ row.assigned_agent ∈ ["analyst"] ∧
      row.client_id = none ∧
      ∀ u ∈ sampleStore.tasks, u.status = TaskStatus.READY →
        u.assigned_agent ∈ ["analyst"] → u.client_id = none →
        row.created_at ≤ u.created_at) :=
  ⟨by decide,
   c8_fifo_claim sampleStore ["analyst"] "cl" 7 (claimRow "cl" 7 sampleTask)
     (by decide)⟩

/-! ### Claim traces (C10, C1) -/

/-- One polling invocation of `get_and_claim_ready_task`. -/
structure ClaimOp where
  caps : List String
  client : String
  preferred : Option String
  now : Nat
  deriving DecidableEq, Repr

/-- A sequence of polling invocations; the row lock serialises the claim
transactions, so concurrent polling is an interleaving of these atomic
steps. -/
def runClaims (s : DBState) : List ClaimOp → DBState × List (Option TaskStepRow)
  | [] => (s, [])
  | op :: ops =>
      let r := get_and_claim_ready_task s op.caps op.client op.preferred op.now
      let rest := runClaims r.1 ops
      (rest.1, r.2 :: rest.2)

theorem nodup_key_unique : ∀ {l : List TaskStepRow},
    (l.map TaskStepRow.step_id).Nodup →
    ∀ {x y : TaskStepRow}, x ∈ l → y ∈ l → x.step_id = y.step_id → x = y := by
  intro l
  induction l with
  | nil => intro _ x y hx; simp at hx
  | cons a tl ih =>
      intro hids x y hx hy hxy
      rw [List.map_cons, List.nodup_cons] at hids
      rcases List.mem_cons.mp hx with rfl | hx2 <;>
        rcases List.mem_cons.mp hy with rfl | hy2
      · rfl
      · exact absurd (hxy ▸ List.mem_map_of_mem TaskStepRow.step_id hy2) hids.1
      · exact absurd (hxy ▸ List.mem_map_of_mem TaskStepRow.step_id hx2) hids.1
      · exact ih hids.2 hx2 hy2 hxy

theorem claim_upd_step_id (t0 : TaskStepRow) (client : String) (now : Nat)
    (r : TaskStepRow) :
    (if r.step_id = t0.step_id then claimRow client now r else r).step_id
      = r.step_id := by
  by_cases h : r.step_id = t0.step_id <;> simp [h, claimRow]

theorem claim_tasks_ids (s : DBState) (caps : List String) (client : String)
    (pref : Option String) (now : Nat) :
    ((get_and_claim_ready_task s caps client pref now).1.tasks.map
        TaskStepRow.step_id) = s.tasks.map TaskStepRow.step_id := by
  unfold get_and_claim_ready_task genericClaim
  have hgen : ∀ t0 : TaskStepRow,
      ((s.tasks.map (fun r =>
          if r.step_id = t0.step_id then claimRow client now r else r)).map
        TaskStepRow.step_id) = s.tasks.map TaskStepRow.step_id := by
    intro t0
    rw [List.map_map]
    apply List.map_congr_left
    intro r _
    exact claim_upd_step_id t0 client now r
  cases pref with
  | some pid =>
      dsimp only
      cases hf : s.tasks.find? (fun r =>
          decide (r.step_id = pid ∧ r.status = TaskStatus.READY ∧
                  r.assigned_agent ∈ caps ∧ r.client_id = none)) with
      | some v => rfl
      | none =>
          dsimp only
          cases hp : pickOldest (s.tasks.filter (isCandidate caps)) with
          | none => rfl
          | some t0 =>
              dsimp only
              by_cases hd : depsSatisfied s.tasks t0 = true
              · rw [if_pos hd]
                exact hgen t0
              · rw [if_neg hd]
  | none =>
      dsimp only
      cases hp : pickOldest (s.tasks.filter (isCandidate caps)) with
      | none => rfl
      | some t0 =>
          dsimp only
          by_cases hd : depsSatisfied s.tasks t0 = true
          · rw [if_pos hd]
            exact hgen t0
          · rw [if_neg hd]

theorem claim_step_frame (s : DBState) (caps : List String) (client : String)
    (pref : Option String) (now : Nat) {x : TaskStepRow}
    (hids : (s.tasks.map TaskStepRow.step_id).Nodup)
    (hx : x ∈ s.tasks) (hc : x.client_id ≠ none) :
    x ∈ (get_and_claim_ready_task s caps client pref now).1.tasks ∧
    (∀ t, (get_and_claim_ready_task s caps client pref now).2 = some t →
      t.step_id ≠ x.step_id) := by
  unfold get_and_claim_ready_task genericClaim
  have hgen : ∀ t0, pickOldest (s.tasks.filter (isCandidate caps)) = some t0 →
      x ∈ (s.tasks.map (fun r =>
          if r.step_id = t0.step_id then claimRow client now r else r)) ∧
      (claimRow client now t0).step_id ≠ x.step_id := by
    intro t0 hp
    have hmem := pickOldest_mem hp
    rcases List.mem_filter.mp hmem with ⟨hm0, hcand⟩
    simp only [isCandidate, decide_eq_true_eq] at hcand
    have hne : x.step_id ≠ t0.step_id := by
      intro he
      have := nodup_key_unique hids hx hm0 he
      rw [this] at hc
      exact hc hcand.2.2
    constructor
    · have hxeq : (if x.step_id = t0.step_id then claimRow client now x else x) = x :=
        if_neg hne
      rw [← hxeq]
      exact List.mem_map_of_mem _ hx
    · show (claimRow client now t0).step_id ≠ x.step_id
      have hcp : (claimRow client now t0).step_id = t0.step_id := rfl
      rw [hcp]
      exact fun he => hne he.symm
  cases pref with
  | some pid =>
      dsimp only
      cases hf : s.tasks.find? (fun r =>
          decide (r.step_id = pid ∧ r.status = TaskStatus.READY ∧
                  r.assigned_agent ∈ caps ∧ r.client_id = none)) with
      | some v =>
          exact ⟨hx, fun t ht => absurd ht (by simp)⟩
      | none =>
          dsimp only
          cases hp : pickOldest (s.tasks.filter (isCandidate caps)) with
          | none => exact ⟨hx, fun t ht => absurd ht (by simp)⟩
          | some t0 =>
              dsimp only
              by_cases hd : depsSatisfied s.tasks t0 = true
              · rw [if_pos hd]
                rcases hgen t0 hp with ⟨h1, h2⟩
                refine ⟨h1, ?_⟩
                intro t ht
                simp only [Option.some.injEq] at ht
                rw [← ht]
                exact h2
              · rw [if_neg hd]
                exact ⟨hx, fun t ht => absurd ht (by simp)⟩
  | none =>
      dsimp only
      cases hp : pickOldest (s.tasks.filter (isCandidate caps)) with
      | none => exact ⟨hx, fun t ht => absurd ht (by simp)⟩
      | some t0 =>
          dsimp only
          by_cases hd : depsSatisfied s.tasks t0 = true
          · rw [if_pos hd]
            rcases hgen t0 hp with ⟨h1, h2⟩
            refine ⟨h1, ?_⟩
            intro t ht
            simp only [Option.some.injEq] at ht
            rw [← ht]
            exact h2
          · rw [if_neg hd]
            exact ⟨hx, fun t ht => absurd ht (by simp)⟩

theorem filterMap_id_cons_none {A : Type} (l : List (Option A)) :
    List.filterMap id (none :: l) = List.filterMap id l := rfl

theorem filterMap_id_cons_some {A : Type} (a : A) (l : List (Option A)) :
    List.filterMap id (some a :: l) = a :: List.filterMap id l := rfl

theorem runClaims_frame (ops : List ClaimOp) :
    ∀ (s : DBState) {x : TaskStepRow},
    (s.tasks.map TaskStepRow.step_id).Nodup →
    x ∈ s.tasks → x.client_id ≠ none →
    x ∈ (runClaims s ops).1.tasks ∧
    ∀ t ∈ (runClaims s ops).2.filterMap id, t.step_id ≠ x.step_id := by
  induction ops with
  | nil =>
      intro s x hids hx _
      exact ⟨hx, by simp [runClaims]⟩
  | cons op ops ih =>
      intro s x hids hx hc
      have hstep := claim_step_frame s op.caps op.client op.preferred op.now
        hids hx hc
      have hids2 : (((get_and_claim_ready_task s op.caps op.client
          op.preferred op.now).1.tasks.map TaskStepRow.step_id)).Nodup := by
        rw [claim_tasks_ids]; exact hids
      have hrest := ih (get_and_claim_ready_task s op.caps op.client
        op.preferred op.now).1 hids2 hstep.1 hc
      refine ⟨hrest.1, ?_⟩
      intro t ht
      simp only [runClaims] at ht
      cases ho : (get_and_claim_ready_task s op.caps op.client
          op.preferred op.now).2 with
      | none =>
          rw [ho, filterMap_id_cons_none] at ht
          exact hrest.2 t ht
      | some v =>
          rw [ho, filterMap_id_cons_some] at ht
          rcases List.mem_cons.mp ht with rfl | ht2
          · exact hstep.2 t ho
          · exact hrest.2 t ht2

theorem resetRow_inprogress_nodeps (wid : String) (r : TaskStepRow)
    (hwid : r.workflow_id = wid) (hdeps : r.dependencies = [])
    (hstat : r.status = TaskStatus.IN_PROGRESS) :
    resetRow wid r = { r with status := TaskStatus.READY } := by
  unfold resetRow
  simp [hwid, hdeps, hstat]

/-- **C10 (confirmed).**  `reset_tasks_for_rework` sets every task with an
empty dependency list to READY regardless of prior status, but clears
`client_id` / `started_at` / `completed_at` only for COMPLETED tasks.  An
IN_PROGRESS, dependency-free task hence ends READY while retaining its
non-null `client_id` and its `started_at`; because
`get_and_claim_ready_task` only selects rows with null `client_id` (and
never modifies rows with a non-null one), no sequence of subsequent claim
invocations ever returns that task or touches its row. -/
theorem c10_orphaned_ready_task (s : DBState) (wid : String)
    (sugg : List String) (now : Nat) (r : TaskStepRow) (c : String)
    (ops : List ClaimOp)
    (hmem : r ∈ s.tasks) (hwid : r.workflow_id = wid)
    (hdeps : r.dependencies = []) (hstat : r.status = TaskStatus.IN_PROGRESS)
    (hclient : r.client_id = some c)
    (hids : (s.tasks.map TaskStepRow.step_id).Nodup) :
    ({ r with status := TaskStatus.READY } ∈
        (reset_tasks_for_rework wid sugg now s).1.tasks) ∧
    ({ r with status := TaskStatus.READY } : TaskStepRow).client_id = some c ∧
    ({ r with status := TaskStatus.READY } : TaskStepRow).started_at
        = r.started_at ∧
    ({ r with status := TaskStatus.READY } ∈
        (runClaims (reset_tasks_for_rework wid sugg now s).1 ops).1.tasks) ∧
    (∀ t ∈ (runClaims (reset_tasks_for_rework wid sugg now s).1
        ops).2.filterMap id, t.step_id ≠ r.step_id) := by
  have hrow : resetRow wid r = { r with status := TaskStatus.READY } :=
    resetRow_inprogress_nodeps wid r hwid hdeps hstat
  have hmem1 : ({ r with status := TaskStatus.READY } : TaskStepRow) ∈
      (reset_tasks_for_rework wid sugg now s).1.tasks := by
    show _ ∈ s.tasks.map (resetRow wid)
    rw [← hrow]
    exact List.mem_map_of_mem _ hmem
  have hids1 : ((reset_tasks_for_rework wid sugg now s).1.tasks.map
      TaskStepRow.step_id).Nodup := by
    show ((s.tasks.map (resetRow wid)).map TaskStepRow.step_id).Nodup
    rw [List.map_map]
    have hcg : s.tasks.map (TaskStepRow.step_id ∘ resetRow wid)
        = s.tasks.map TaskStepRow.step_id := by
      apply List.map_congr_left
      intro x _
      show (resetRow wid x).step_id = x.step_id
      unfold resetRow
      dsimp only
      split_ifs <;> rfl
    rw [hcg]
    exact hids
  have hcl : ({ r with status := TaskStatus.READY } : TaskStepRow).client_id
      ≠ none := by
    show r.client_id ≠ none
    rw [hclient]; simp
  have hframe := runClaims_frame ops (reset_tasks_for_rework wid sugg now s).1
      hids1 hmem1 hcl
  refine ⟨hmem1, hclient, rfl, hframe.1, ?_⟩
  intro t ht
  exact hframe.2 t ht

/-- An IN_PROGRESS dependency-free task still bound to client `c0`. -/
def busyTask : TaskStepRow :=
  { sampleTask with
      step_id := "TID2"
      status := TaskStatus.IN_PROGRESS
      client_id := some "c0"
      started_at := some 1 }

def busyStore : DBState :=
  { dbEmpty with workflows := [sampleWorkflow], tasks := [busyTask] }

def busyOps : List ClaimOp := [⟨["analyst"], "cl", none, 9⟩]

/-- Closed witness for `c10_orphaned_ready_task` on `busyStore`. -/
theorem c10_orphaned_ready_task_witness :
    (busyTask ∈ busyStore.tasks) ∧ busyTask.workflow_id = "W" ∧
    busyTask.dependencies = [] ∧ busyTask.status = TaskStatus.IN_PROGRESS ∧
    busyTask.client_id = some "c0" ∧
    (busyStore.tasks.map TaskStepRow.step_id).Nodup ∧
    (({ busyTask with status := TaskStatus.READY } ∈
        (reset_tasks_for_rework "W" [] 5 busyStore).1.tasks) ∧
     ({ busyTask with status := TaskStatus.READY } : TaskStepRow).client_id
        = some "c0" ∧
     ({ busyTask with status := TaskStatus.READY } : TaskStepRow).started_at
        = busyTask.started_at ∧
     ({ busyTask with status := TaskStatus.READY } ∈
        (runClaims (reset_tasks_for_rework "W" [] 5 busyStore).1
          busyOps).1.tasks) ∧
     (∀ t ∈ (runClaims (reset_tasks_for_rework "W" [] 5 busyStore).1
        busyOps).2.filterMap id, t.step_id ≠ busyTask.step_id)) :=
  ⟨by decide, by decide, by decide, by decide, by decide, by decide,
   c10_orphaned_ready_task busyStore "W" [] 5 busyTask "c0" busyOps
     (by decide) (by decide) (by decide) (by decide) (by decide) (by decide)⟩

/-! ### Atomic claiming under concurrency (C1) -/

/-- Status-READY test, as the claim query's status predicate. -/
def isReadyB (r : TaskStepRow) : Bool := decide (r.status = TaskStatus.READY)

/-- The READY rows of the store. -/
def readyTasks (s : DBState) : List TaskStepRow := s.tasks.filter isReadyB

theorem candidates_eq_ready (s : DBState) (caps : List String)
    (hwf : ∀ r ∈ s.tasks, r.status = TaskStatus.READY → r.client_id = none)
    (hcov : ∀ r ∈ s.tasks, r.status = TaskStatus.READY →
        r.assigned_agent ∈ caps) :
    s.tasks.filter (isCandidate caps) = readyTasks s := by
  unfold readyTasks
  apply List.filter_congr
  intro r hr
  simp only [isCandidate, isReadyB, decide_eq_decide]
  constructor
  · rintro ⟨h1, _, _⟩; exact h1
  · intro h1; exact ⟨h1, hcov r hr h1, hwf r hr h1⟩

theorem claim_step_no_ready (s : DBState) (caps : List String)
    (client : String) (now : Nat)
    (hcand : s.tasks.filter (isCandidate caps) = []) :
    get_and_claim_ready_task s caps client none now = (s, none) := by
  unfold get_and_claim_ready_task genericClaim
  dsimp only
  rw [hcand]
  rfl

theorem claim_step_success (s : DBState) (caps : List String)
    (client : String) (now : Nat) (t0 : TaskStepRow)
    (hp : pickOldest (s.tasks.filter (isCandidate caps)) = some t0)
    (hdep : depsSatisfied s.tasks t0 = true) :
    get_and_claim_ready_task s caps client none now =
      ({ s with tasks := s.tasks.map (fun r =>
           if r.step_id = t0.step_id then claimRow client now r else r) },
       some (claimRow client now t0)) := by
  unfold get_and_claim_ready_task genericClaim
  dsimp only
  rw [hp]
  dsimp only
  rw [if_pos hdep]

theorem map_upd_noop (tl : List TaskStepRow) (t0 : TaskStepRow)
    (client : String) (now : Nat)
    (h : ∀ x ∈ tl, x.step_id ≠ t0.step_id) :
    tl.map (fun r => if r.step_id = t0.step_id then claimRow client now r
      else r) = tl := by
  induction tl with
  | nil => rfl
  | cons a t ih =>
      rw [List.map_cons,
          if_neg (h a (List.mem_cons_self a t)),
          ih (fun x hx => h x (List.mem_cons_of_mem a hx))]

theorem ready_count_after_claim :
    ∀ (l : List TaskStepRow) (t0 : TaskStepRow) (client : String) (now : Nat),
    (l.map TaskStepRow.step_id).Nodup → t0 ∈ l →
    t0.status = TaskStatus.READY →
    ((l.map (fun r => if r.step_id = t0.step_id then claimRow client now r
        else r)).filter isReadyB).length + 1
      = (l.filter isReadyB).length := by
  intro l
  induction l with
  | nil => intro t0 _ _ _ hmem _; simp at hmem
  | cons a tl ih =>
      intro t0 client now hids hmem hr
      rw [List.map_cons, List.nodup_cons] at hids
      by_cases ha : a.step_id = t0.step_id
      · have hat : a = t0 := by
          rcases List.mem_cons.mp hmem with rfl | htl
          · rfl
          · exact absurd (ha ▸ List.mem_map_of_mem TaskStepRow.step_id htl)
              hids.1
        have hnone : ∀ x ∈ tl, x.step_id ≠ t0.step_id := by
          intro x hx he
          apply hids.1
          rw [ha, ← he]
          exact List.mem_map_of_mem _ hx
        rw [List.map_cons, if_pos ha, map_upd_noop tl t0 client now hnone]
        rw [List.filter_cons, List.filter_cons]
        have h1 : isReadyB (claimRow client now a) = false := by
          simp [isReadyB, claimRow]
        have h2 : isReadyB a = true := by
          rw [hat]; simp [isReadyB, hr]
        rw [h1, h2]
        simp
      · have hmem2 : t0 ∈ tl := by
          rcases List.mem_cons.mp hmem with rfl | htl
          · exact absurd rfl ha
          · exact htl
        have hih := ih t0 client now hids.2 hmem2 hr
        rw [List.map_cons, if_neg ha, List.filter_cons, List.filter_cons]
        cases hpa : isReadyB a <;> simp [hpa] <;> omega

theorem ready_after_claim_mem (l : List TaskStepRow) (t0 : TaskStepRow)
    (client : String) (now : Nat) :
    ∀ x ∈ l.map (fun r => if r.step_id = t0.step_id then claimRow client now r
        else r), x.status = TaskStatus.READY →
      x ∈ l ∧ x.step_id ≠ t0.step_id := by
  intro x hx hready
  rcases List.mem_map.mp hx with ⟨r, hr, hrx⟩
  by_cases he : r.step_id = t0.step_id
  · rw [if_pos he] at hrx
    rw [← hrx] at hready
    simp [claimRow] at hready
  · rw [if_neg he] at hrx
    rw [← hrx]
    exact ⟨hr, he⟩

theorem filter_length_map_pointwise {A : Type} (l : List A) (f : A → A)
    (p : A → Bool) (h : ∀ x ∈ l, p (f x) = p x) :
    ((l.map f).filter p).length = (l.filter p).length := by
  induction l with
  | nil => rfl
  | cons a t ih =>
      rw [List.map_cons, List.filter_cons, List.filter_cons,
          h a (List.mem_cons_self a t)]
      have hih := ih (fun x hx => h x (List.mem_cons_of_mem a hx))
      cases hpa : p a <;> simp [hpa] <;> omega

theorem depsSatisfied_after_claim (l : List TaskStepRow) (t0 : TaskStepRow)
    (client : String) (now : Nat)
    (hids : (l.map TaskStepRow.step_id).Nodup) (hmem : t0 ∈ l)
    (hr : t0.status = TaskStatus.READY) :
    ∀ x, depsSatisfied (l.map (fun r =>
        if r.step_id = t0.step_id then claimRow client now r else r)) x
      = depsSatisfied l x := by
  intro x
  unfold depsSatisfied
  by_cases hd : x.dependencies.isEmpty
  · simp [hd]
  · simp only [hd, Bool.false_eq_true, if_false]
    have hlen : ((l.map (fun r =>
        if r.step_id = t0.step_id then claimRow client now r else r)).filter
          (fun t => decide (t.workflow_id = x.workflow_id ∧
            t.step_id ∈ x.dependencies ∧
            t.status = TaskStatus.COMPLETED))).length
        = (l.filter (fun t => decide (t.workflow_id = x.workflow_id ∧
            t.step_id ∈ x.dependencies ∧
            t.status = TaskStatus.COMPLETED))).length := by
      apply filter_length_map_pointwise
      intro r hrl
      by_cases he : r.step_id = t0.step_id
      · have hrt : r = t0 := nodup_key_unique hids hrl hmem he
        rw [if_pos he, hrt]
        simp [claimRow, hr]
      · rw [if_neg he]
    rw [hlen]

theorem runClaims_cons (s : DBState) (op : ClaimOp) (ops : List ClaimOp) :
    runClaims s (op :: ops) =
      ((runClaims (get_and_claim_ready_task s op.caps op.client op.preferred
          op.now).1 ops).1,
       (get_and_claim_ready_task s op.caps op.client op.preferred op.now).2 ::
         (runClaims (get_and_claim_ready_task s op.caps op.client
           op.preferred op.now).1 ops).2) := rfl

theorem runClaims_atomic : ∀ (ops : List ClaimOp) (s : DBState),
    (s.tasks.map TaskStepRow.step_id).Nodup →
    (∀ r ∈ s.tasks, r.status = TaskStatus.READY →
        r.client_id = none ∧ depsSatisfied s.tasks r = true) →
    (∀ op ∈ ops, op.preferred = none ∧
        ∀ r ∈ s.tasks, r.status = TaskStatus.READY →
          r.assigned_agent ∈ op.caps) →
    ((runClaims s ops).2.filterMap id).length
        = min ops.length (readyTasks s).length ∧
    (((runClaims s ops).2.filterMap id).map TaskStepRow.step_id).Nodup ∧
    (∀ t ∈ (runClaims s ops).2.filterMap id,
        t.status = TaskStatus.IN_PROGRESS ∧ t.client_id ≠ none ∧
        t.step_id ∈ (readyTasks s).map TaskStepRow.step_id ∧
        ∃ row ∈ (runClaims s ops).1.tasks,
          row.step_id = t.step_id ∧ row.status = TaskStatus.IN_PROGRESS ∧
          row.client_id ≠ none) ∧
    (runClaims s ops).2.length = ops.length := by
  intro ops
  induction ops with
  | nil =>
      intro s hids hwf hcov
      refine ⟨by simp [runClaims], by simp [runClaims], ?_, by simp [runClaims]⟩
      intro t ht
      simp [runClaims] at ht
  | cons op ops ih =>
      intro s hids hwf hcov
      have hop := hcov op (List.mem_cons_self op ops)
      have hcovtail : ∀ o ∈ ops, o.preferred = none ∧
          ∀ r ∈ s.tasks, r.status = TaskStatus.READY →
            r.assigned_agent ∈ o.caps :=
        fun o ho => hcov o (List.mem_cons_of_mem op ho)
      have hcand : s.tasks.filter (isCandidate op.caps) = readyTasks s :=
        candidates_eq_ready s op.caps (fun r hr h => (hwf r hr h).1) hop.2
      by_cases hready : readyTasks s = []
      · have hstep : get_and_claim_ready_task s op.caps op.client
            op.preferred op.now = (s, none) := by
          rw [hop.1]
          exact claim_step_no_ready s op.caps op.client op.now
            (by rw [hcand, hready])
        have hrest := ih s hids hwf hcovtail
        rw [runClaims_cons, hstep]
        dsimp only
        refine ⟨?_, ?_, ?_, ?_⟩
        · rw [filterMap_id_cons_none, hready]
          have h1 := hrest.1
          rw [hready] at h1
          simp only [List.length_nil] at h1 ⊢
          omega
        · rw [filterMap_id_cons_none]
          exact hrest.2.1
        · intro t ht
          rw [filterMap_id_cons_none] at ht
          exact hrest.2.2.1 t ht
        · simp only [List.length_cons, hrest.2.2.2]
      · have hne : s.tasks.filter (isCandidate op.caps) ≠ [] := by
          rw [hcand]; exact hready
        obtain ⟨t0, hp⟩ : ∃ t0,
            pickOldest (s.tasks.filter (isCandidate op.caps)) = some t0 := by
          cases hq : pickOldest (s.tasks.filter (isCandidate op.caps)) with
          | none => exact absurd (pickOldest_eq_none hq) hne
          | some v => exact ⟨v, rfl⟩
        have ht0cand := pickOldest_mem hp
        have ht0mem : t0 ∈ s.tasks := (List.mem_filter.mp ht0cand).1
        have ht0ready : t0.status = TaskStatus.READY := by
          have hc := (List.mem_filter.mp ht0cand).2
          simp only [isCandidate, decide_eq_true_eq] at hc
          exact hc.1
        have ht0wf := hwf t0 ht0mem ht0ready
        set s2 : DBState := { s with tasks := s.tasks.map (fun r =>
          if r.step_id = t0.step_id then claimRow op.client op.now r else r) }
          with hs2
        have hstep : get_and_claim_ready_task s op.caps op.client
            op.preferred op.now = (s2, some (claimRow op.client op.now t0)) := by
          rw [hop.1]
          exact claim_step_success s op.caps op.client op.now t0 hp ht0wf.2
        have hids_eq : s2.tasks.map TaskStepRow.step_id
            = s.tasks.map TaskStepRow.step_id := by
          show (s.tasks.map _).map _ = _
          rw [List.map_map]
          apply List.map_congr_left
          intro r _
          exact claim_upd_step_id t0 op.client op.now r
        have hids2 : (s2.tasks.map TaskStepRow.step_id).Nodup := by
          rw [hids_eq]; exact hids
        have hreadysub : ∀ x ∈ s2.tasks, x.status = TaskStatus.READY →
            x ∈ s.tasks ∧ x.step_id ≠ t0.step_id :=
          fun x hx h =>
            ready_after_claim_mem s.tasks t0 op.client op.now x hx h
        have hdeps2 := depsSatisfied_after_claim s.tasks t0 op.client op.now
          hids ht0mem ht0ready
        have hwf2 : ∀ r ∈ s2.tasks, r.status = TaskStatus.READY →
            r.client_id = none ∧ depsSatisfied s2.tasks r = true := by
          intro r hr h
          have hsub := hreadysub r hr h
          refine ⟨(hwf r hsub.1 h).1, ?_⟩
          show depsSatisfied (s.tasks.map _) r = true
          rw [hdeps2 r]
          exact (hwf r hsub.1 h).2
        have hcov2 : ∀ o ∈ ops, o.preferred = none ∧
            ∀ r ∈ s2.tasks, r.status = TaskStatus.READY →
              r.assigned_agent ∈ o.caps :=
          fun o ho => ⟨(hcovtail o ho).1,
            fun r hr h => (hcovtail o ho).2 r (hreadysub r hr h).1 h⟩
        have hcount : (readyTasks s2).length + 1 = (readyTasks s).length := by
          show ((s.tasks.map _).filter isReadyB).length + 1 = _
          exact ready_count_after_claim s.tasks t0 op.client op.now hids
            ht0mem ht0ready
        have hreadyB : ∀ x ∈ readyTasks s2, x.status = TaskStatus.READY := by
          intro x hx
          have := (List.mem_filter.mp hx).2
          simpa [isReadyB] using this
        have hnotmem : ∀ x ∈ readyTasks s2, x.step_id ≠ t0.step_id := by
          intro x hx
          exact (hreadysub x (List.mem_filter.mp hx).1 (hreadyB x hx)).2
        have hreadysub2 : ∀ x ∈ readyTasks s2, x ∈ readyTasks s := by
          intro x hx
          rcases List.mem_filter.mp hx with ⟨hx1, hx2⟩
          exact List.mem_filter.mpr
            ⟨(hreadysub x hx1 (hreadyB x hx)).1, hx2⟩
        have hclaimmem : claimRow op.client op.now t0 ∈ s2.tasks := by
          show _ ∈ s.tasks.map _
          have hif : (if t0.step_id = t0.step_id then
              claimRow op.client op.now t0 else t0)
              = claimRow op.client op.now t0 := if_pos rfl
          rw [← hif]
          exact List.mem_map_of_mem _ ht0mem
        have hclaimcl : (claimRow op.client op.now t0).client_id ≠ none := by
          simp [claimRow]
        have hframe := runClaims_frame ops s2 hids2 hclaimmem hclaimcl
        have hrest := ih s2 hids2 hwf2 hcov2
        rw [runClaims_cons, hstep]
        dsimp only
        have hkpos : 0 < (readyTasks s).length :=
          List.length_pos.mpr hready
        refine ⟨?_, ?_, ?_, ?_⟩
        · rw [filterMap_id_cons_some]
          have h1 := hrest.1
          simp only [List.length_cons]
          omega
        · rw [filterMap_id_cons_some, List.map_cons, List.nodup_cons]
          refine ⟨?_, hrest.2.1⟩
          intro hmem
          rcases List.mem_map.mp hmem with ⟨t, ht, htid⟩
          have hprops := hrest.2.2.1 t ht
          rcases List.mem_map.mp hprops.2.2.1 with ⟨y, hy, hyid⟩
          exact hnotmem y hy (by
            rw [hyid, htid]
            rfl)
        · intro t ht
          rw [filterMap_id_cons_some] at ht
          rcases List.mem_cons.mp ht with rfl | ht2
          · refine ⟨rfl, hclaimcl, ?_, ?_⟩
            · have ht0r : t0 ∈ readyTasks s := List.mem_filter.mpr
                ⟨ht0mem, by simp [isReadyB, ht0ready]⟩
              show t0.step_id ∈ (readyTasks s).map TaskStepRow.step_id
              exact List.mem_map_of_mem _ ht0r
            · exact ⟨claimRow op.client op.now t0, hframe.1, rfl, rfl, hclaimcl⟩
          · have hprops := hrest.2.2.1 t ht2
            refine ⟨hprops.1, hprops.2.1, ?_, hprops.2.2.2⟩
            rcases List.mem_map.mp hprops.2.2.1 with ⟨y, hy, hyid⟩
            rw [← hyid]
            exact List.mem_map_of_mem _ (hreadysub2 y hy)
        · simp only [List.length_cons, hrest.2.2.2]

theorem count_none_add {A : Type} [DecidableEq A] (l : List (Option A)) :
    (l.filter (fun o => decide (o = none))).length
      + (l.filterMap id).length = l.length := by
  induction l with
  | nil => rfl
  | cons o t ih =>
      cases o with
      | none =>
          rw [filterMap_id_cons_none]
          simp [List.filter_cons]
          omega
      | some v =>
          rw [filterMap_id_cons_some]
          simp [List.filter_cons]
          omega

/-- **C1 (confirmed).**  The row-lock serialises the claim transactions,
so `n` concurrent pollers are an interleaving of `n` atomic
`get_and_claim_ready_task` steps (`runClaims`).  For a store whose READY
tasks are well-formed — distinct step ids, null `client_id` and
satisfied dependencies for every READY row, as the invariants I2/I3
guarantee — and `n > k` pollers whose capabilities all cover the READY
tasks, exactly `k` pollers receive a task, the returned tasks carry
pairwise-distinct step ids and status IN_PROGRESS (their rows in the
final store are IN_PROGRESS and bound to a client), and the remaining
`n − k` pollers receive nothing: no two callers ever claim the same
row. -/
theorem c1_atomic_claim (s : DBState) (pollers : List ClaimOp) (k : Nat)
    (hids : (s.tasks.map TaskStepRow.step_id).Nodup)
    (hwf : ∀ r ∈ s.tasks, r.status = TaskStatus.READY →
        r.client_id = none ∧ depsSatisfied s.tasks r = true)
    (hcov : ∀ op ∈ pollers, op.preferred = none ∧
        ∀ r ∈ s.tasks, r.status = TaskStatus.READY →
          r.assigned_agent ∈ op.caps)
    (hk : (readyTasks s).length = k)
    (hn : k < pollers.length) :
    ((runClaims s pollers).2.filterMap id).length = k ∧
    (((runClaims s pollers).2.filterMap id).map TaskStepRow.step_id).Nodup ∧
    (∀ t ∈ (runClaims s pollers).2.filterMap id,
        t.status = TaskStatus.IN_PROGRESS ∧ t.client_id ≠ none ∧
        ∃ row ∈ (runClaims s pollers).1.tasks,
          row.step_id = t.step_id ∧ row.status = TaskStatus.IN_PROGRESS ∧
          row.client_id ≠ none) ∧
    ((runClaims s pollers).2.filter (fun o => decide (o = none))).length
        = pollers.length - k := by
  have hmain := runClaims_atomic pollers s hids hwf hcov
  have hcnt : ((runClaims s pollers).2.filterMap id).length = k := by
    have h1 := hmain.1
    rw [hk] at h1
    omega
  refine ⟨hcnt, hmain.2.1, ?_, ?_⟩
  · intro t ht
    have h := hmain.2.2.1 t ht
    exact ⟨h.1, h.2.1, h.2.2.2⟩
  · have hadd := count_none_add (runClaims s pollers).2
    have hlen := hmain.2.2.2
    omega

/-- Two pollers with matching capabilities against the one READY task of
`sampleStore`. -/
def pollerOps : List ClaimOp :=
  [⟨["analyst"], "w1", none, 3⟩, ⟨["analyst"], "w2", none, 4⟩]

/-- Closed witness for `c1_atomic_claim`: one READY task, two pollers. -/
theorem c1_atomic_claim_witness :
    ((sampleStore.tasks.map TaskStepRow.step_id).Nodup) ∧
    (∀ r ∈ sampleStore.tasks, r.status = TaskStatus.READY →
        r.client_id = none ∧ depsSatisfied sampleStore.tasks r = true) ∧
    (∀ op ∈ pollerOps, op.preferred = none ∧
        ∀ r ∈ sampleStore.tasks, r.status = TaskStatus.READY →
          r.assigned_agent ∈ op.caps) ∧
    ((readyTasks sampleStore).length = 1) ∧ (1 < pollerOps.length) ∧
    (((runClaims sampleStore pollerOps).2.filterMap id).length = 1 ∧
     (((runClaims sampleStore pollerOps).2.filterMap id).map
        TaskStepRow.step_id).Nodup ∧
     (∀ t ∈ (runClaims sampleStore pollerOps).2.filterMap id,
        t.status = TaskStatus.IN_PROGRESS ∧ t.client_id ≠ none ∧
        ∃ row ∈ (runClaims sampleStore pollerOps).1.tasks,
          row.step_id = t.step_id ∧ row.status = TaskStatus.IN_PROGRESS ∧
          row.client_id ≠ none) ∧
     ((runClaims sampleStore pollerOps).2.filter
        (fun o => decide (o = none))).length = pollerOps.length - 1) :=
  ⟨by decide, by decide, by decide, by decide, by decide,
   c1_atomic_claim sampleStore pollerOps 1 (by decide) (by decide) (by decide)
     (by decide) (by decide)⟩
